import Mathlib

/-!
Verification of the HTML parsing / extraction core of
`src/scripts/duke_netnutrition_scraper.py`.

The Python code is shallowly embedded as executable Lean definitions:

* Python strings are `String` (manipulated through their `List Char` data,
  restricted to the ASCII whitespace characters that occur in the scraped
  markup);
* the stream of events that Python's `html.parser.HTMLParser` tokenizer
  delivers to the `HTMLTreeBuilder` handler methods is embedded as a
  `List Tok` (the tokenizer itself is external standard-library code: it
  lowercases tag and attribute names and decodes character references, so
  the `data` payloads below are already entity-decoded text);
* the mutable `HTMLNode` objects are embedded as a pure tree `HTMLNode`;
  the mutable open-element stack of `HTMLTreeBuilder` becomes a list of
  open frames (top first) whose contents are folded into the parent frame
  at the moment the frame is closed, which yields exactly the tree the
  Python code observes after `feed` returns.
-/

/-! ### Python string primitives -/

/-- ASCII whitespace, as used by `str.split()` / `str.strip()` on the
ASCII-whitespace-only text this scraper processes. -/
def isWs (c : Char) : Bool :=
  c = ' ' || c = '\t' || c = '\n' || c = '\r'

/-- Accumulator-based splitting of a character list into maximal
non-whitespace runs, i.e. Python `str.split()` with no argument. -/
def wordsAux (cur : List Char) : List Char → List (List Char)
  | [] => if cur.isEmpty then [] else [cur.reverse]
  | c :: cs =>
    if isWs c then
      (if cur.isEmpty then wordsAux [] cs else cur.reverse :: wordsAux [] cs)
    else wordsAux (c :: cur) cs

def wordsL (l : List Char) : List (List Char) := wordsAux [] l

/-- Python `" ".join(ws)` on character lists. -/
def joinSp : List (List Char) → List Char
  | [] => []
  | [w] => w
  | w :: ws => w ++ ' ' :: joinSp ws

/-- Python `" ".join(s.split())`: collapse whitespace runs to single
spaces and trim both ends. -/
def collapseL (l : List Char) : List Char := joinSp (wordsL l)

/-- `" ".join(combined.split())` at the `String` level (`HTMLNode.text`
with `strip=True`). -/
def collapseWs (s : String) : String := String.mk (collapseL s.data)

/-- Python `str.strip()` on character lists. -/
def trimL (l : List Char) : List Char :=
  (((l.dropWhile isWs).reverse.dropWhile isWs)).reverse

/-- Python `str.strip()`. -/
def pyStrip (s : String) : String := String.mk (trimL s.data)

/-- Does `pat` occur at the head of `l`? -/
def leadsWith : List Char → List Char → Bool
  | [], _ => true
  | _ :: _, [] => false
  | p :: ps, c :: cs => p = c && leadsWith ps cs

/-- Fuel-driven core of `replaceL`; every step consumes at least one
input character, so `l.length` fuel always suffices. -/
def replaceAux (pat rep : List Char) : Nat → List Char → List Char
  | 0, l => l
  | _, [] => []
  | fuel + 1, c :: rest =>
    if leadsWith pat (c :: rest) then
      rep ++ replaceAux pat rep fuel (rest.drop (pat.length - 1))
    else
      c :: replaceAux pat rep fuel rest

/-- Python `str.replace(pat, rep)` for a non-empty pattern: replace
every non-overlapping occurrence, scanning left to right (the
replacement text is not rescanned). -/
def replaceL (pat rep : List Char) (l : List Char) : List Char :=
  if pat.isEmpty then l else replaceAux pat rep l.length l

/-- Python `str.replace`. -/
def pyReplace (s pat rep : String) : String :=
  String.mk (replaceL pat.data rep.data s.data)

/-- Python `str.split(",")` on character lists: always at least one
segment, empty segments preserved. -/
def splitCommaL : List Char → List (List Char)
  | [] => [[]]
  | c :: cs =>
    if c = ',' then [] :: splitCommaL cs
    else
      match splitCommaL cs with
      | s :: ss => (c :: s) :: ss
      | [] => [[c]]

/-- Digits-only parse of a character run (`none` if empty or any
non-digit). -/
def digitsToNat : List Char → Option Nat
  | [] => none
  | l => go l 0
where
  go : List Char → Nat → Option Nat
    | [], acc => some acc
    | c :: cs, acc =>
      if c.isDigit then go cs (acc * 10 + (c.toNat - 48)) else none

/-- Python `int(s)` restricted to decimal literals: surrounding
whitespace and an optional single sign are accepted, anything else is a
`ValueError` (`none`). -/
def pyInt? (s : String) : Option Int :=
  match trimL s.data with
  | [] => none
  | '-' :: rest => (digitsToNat rest).map (fun n => -(n : Int))
  | '+' :: rest => (digitsToNat rest).map (fun n => (n : Int))
  | t => (digitsToNat t).map (fun n => (n : Int))

/-- Python truthiness-based `a or b` for an optional string on the left:
`a` when present and non-empty, else `b`. -/
def pyOr (a : Option String) (b : String) : String :=
  match a with
  | some v => if v = "" then b else v
  | none => b

/-- Substring containment on character lists (Python `pat in s`). -/
def containsSubL (pat : List Char) : List Char → Bool
  | [] => leadsWith pat []
  | c :: cs => leadsWith pat (c :: cs) || containsSubL pat cs

/-! ### The DOM node (`HTMLNode` in the Python source)

`__slots__ = ("tag", "attrs", "parent", "children", "text_parts")`: the
`parent` back-reference is navigational only (never read by the code
under verification), so the pure embedding omits it. -/

inductive HTMLNode : Type where
  | mk : String → List (String × String) → List HTMLNode → List String → HTMLNode

def HTMLNode.tag : HTMLNode → String
  | .mk t _ _ _ => t

def HTMLNode.attrs : HTMLNode → List (String × String)
  | .mk _ a _ _ => a

def HTMLNode.children : HTMLNode → List HTMLNode
  | .mk _ _ c _ => c

def HTMLNode.text_parts : HTMLNode → List String
  | .mk _ _ _ p => p

/-- `attrs.get(key)`: the attribute dict is built by a comprehension in
which a later duplicate key overwrites an earlier one, hence the
last-binding-wins fold. -/
def getAttr (n : HTMLNode) (key : String) : Option String :=
  n.attrs.foldl (fun acc p => if p.1 = key then some p.2 else acc) none

/-- `attrs.get(key, d)`. -/
def getAttrD (n : HTMLNode) (key d : String) : String :=
  (getAttr n key).getD d

/-- `HTMLNode.append_child`. -/
def addChild : HTMLNode → HTMLNode → HTMLNode
  | .mk t a c p, child => .mk t a (c ++ [child]) p

/-- `HTMLNode.add_text`. -/
def addText : HTMLNode → String → HTMLNode
  | .mk t a c p, s => .mk t a c (p ++ [s])

/-- `HTMLNode.class_list`: split the `class` attribute on commas and
whitespace, discarding empty tokens. -/
def HTMLNode.class_list (n : HTMLNode) : List String :=
  (wordsL ((getAttrD n "class" "").data.map
    (fun c => if c = ',' then ' ' else c))).map String.mk

mutual

/-- `HTMLNode.text(strip=False)` as a character list: this node's own
text fragments concatenated, followed by each child's raw text in child
order (the Python method appends `child.text(False)` for each child
after the own fragments). -/
def textRawL : HTMLNode → List Char
  | .mk _ _ cs ps => (ps.map String.data).flatten ++ textRawListL cs

def textRawListL : List HTMLNode → List Char
  | [] => []
  | c :: cs => textRawL c ++ textRawListL cs

end

/-- `HTMLNode.text(strip)`: with `strip=True` the combined raw text is
collapsed by `" ".join(combined.split())`. -/
def HTMLNode.text (n : HTMLNode) (strip : Bool := true) : String :=
  if strip then String.mk (collapseL (textRawL n)) else String.mk (textRawL n)

mutual

/-- `HTMLNode.iter`: pre-order depth-first traversal, as a list. -/
def nodeIter : HTMLNode → List HTMLNode
  | .mk t a cs ps => .mk t a cs ps :: nodeIterList cs

def nodeIterList : List HTMLNode → List HTMLNode
  | [] => []
  | c :: cs => nodeIter c ++ nodeIterList cs

end

/-- The combined filter of `find_all` / `find_first`: optional tag-name
equality ANDed with the predicate (Python's absent predicate is the
constant-true `trueP` below). -/
def matchesQ (tagOpt : Option String) (p : HTMLNode → Bool) (n : HTMLNode) : Bool :=
  (match tagOpt with
   | some t => n.tag == t
   | none => true) && p n

def trueP : HTMLNode → Bool := fun _ => true

/-- `HTMLNode.find_all`. -/
def find_all (n : HTMLNode) (tagOpt : Option String) (p : HTMLNode → Bool) :
    List HTMLNode :=
  (nodeIter n).filter (matchesQ tagOpt p)

/-- `HTMLNode.find_first`: first match of the depth-first traversal. -/
def find_first (n : HTMLNode) (tagOpt : Option String) (p : HTMLNode → Bool) :
    Option HTMLNode :=
  (nodeIter n).find? (matchesQ tagOpt p)

mutual

/-- Structural equality of nodes.  The Python code compares nodes with
`is` (object identity); in the pure tree two structurally equal nodes
are indistinguishable, so identity is embedded as structural equality
(the inputs exercised by the claims contain no duplicated select
elements, where the two notions could differ). -/
def nodeEq : HTMLNode → HTMLNode → Bool
  | .mk t1 a1 c1 p1, .mk t2 a2 c2 p2 =>
    t1 == t2 && a1 == a2 && nodeEqList c1 c2 && p1 == p2

def nodeEqList : List HTMLNode → List HTMLNode → Bool
  | [], [] => true
  | a :: as, b :: bs => nodeEq a b && nodeEqList as bs
  | _, _ => false

end

/-! ### The tree builder (`HTMLTreeBuilder`)

Events delivered by the stdlib tokenizer.  Tag and attribute names are
lowercased by `buildTree` below, mirroring `html.parser.HTMLParser`. -/

inductive Tok : Type where
  | start : String → List (String × String) → Tok
  | startEnd : String → List (String × String) → Tok
  | endTag : String → Tok
  | data : String → Tok

/-- `VOID_TAGS` from the source. -/
def VOID_TAGS : List String :=
  ["area", "base", "br", "col", "embed", "hr", "img", "input", "link",
   "meta", "param", "source", "track", "wbr"]

/-- `handle_starttag`: append a fresh node to the current top of stack;
push it unless its tag is void.  In the pure embedding a non-void node
is attached to its parent at the moment it is closed instead, which
yields the same final tree. -/
def handleStart (stack : List HTMLNode) (tag : String)
    (attrs : List (String × String)) : List HTMLNode :=
  match stack with
  | [] => []
  | top :: rest =>
    if VOID_TAGS.contains tag then addChild top (.mk tag attrs [] []) :: rest
    else .mk tag attrs [] [] :: top :: rest

/-- The scan of `handle_endtag`: position (from the top) of the nearest
frame whose tag matches, never considering the bottom (root) frame —
Python's `range(len(stack) - 1, 0, -1)`. -/
def findMatch (tag : String) : List HTMLNode → Option Nat
  | [] => none
  | [_] => none
  | f :: rest =>
    if f.tag == tag then some 0 else (findMatch tag rest).map (· + 1)

/-- Close the topmost frame into the frame below it (the frame becomes a
finished child of its parent). -/
def close1 : List HTMLNode → List HTMLNode
  | f :: g :: rest => addChild g f :: rest
  | s => s

def closeTimes : Nat → List HTMLNode → List HTMLNode
  | 0, s => s
  | n + 1, s => closeTimes n (close1 s)

/-- `handle_endtag`: truncate the stack to just below the nearest
matching frame (`self._stack = self._stack[:idx]`); a tag with no match
is a no-op. -/
def handleEnd (stack : List HTMLNode) (tag : String) : List HTMLNode :=
  match findMatch tag stack with
  | none => stack
  | some p => closeTimes (p + 1) stack

/-- `handle_data`: empty data is a no-op, otherwise append to the text
fragments of the current top of stack. -/
def handleData (stack : List HTMLNode) (s : String) : List HTMLNode :=
  if s = "" then stack
  else
    match stack with
    | [] => []
    | top :: rest => addText top s :: rest

/-- One tokenizer event (`handle_startendtag` is start followed by end
for the same tag). -/
def stepTok (stack : List HTMLNode) : Tok → List HTMLNode
  | .start t a => handleStart stack t a
  | .startEnd t a => handleEnd (handleStart stack t a) t
  | .endTag t => handleEnd stack t
  | .data s => handleData stack s

/-- ASCII lowercasing of the characters produced by the tokenizer for
tag/attribute names. -/
def asciiLowerChar (c : Char) : Char :=
  if 65 ≤ c.toNat ∧ c.toNat ≤ 90 then Char.ofNat (c.toNat + 32) else c

def asciiLower (s : String) : String := String.mk (s.data.map asciiLowerChar)

/-- `html.parser.HTMLParser` lowercases tag and attribute names before
invoking the handlers; attribute values without `=value` arrive as
`None` and are turned into `""` by the handler, so values here are
already strings. -/
def lowerTok : Tok → Tok
  | .start t a => .start (asciiLower t) (a.map (fun p => (asciiLower p.1, p.2)))
  | .startEnd t a => .startEnd (asciiLower t) (a.map (fun p => (asciiLower p.1, p.2)))
  | .endTag t => .endTag (asciiLower t)
  | .data s => .data s

/-- The root node created by `HTMLTreeBuilder.__init__`. -/
def rootNode : HTMLNode := .mk "document" [] [] []

/-- The open-element stack after feeding the given events
(`self._stack`, top first). -/
def buildStack (toks : List Tok) : List HTMLNode :=
  (toks.map lowerTok).foldl stepTok [rootNode]

/-- Fold a finished frame into each remaining open frame in turn,
bottom of the stack last. -/
def collapseInto (f : HTMLNode) : List HTMLNode → HTMLNode
  | [] => f
  | g :: rest => collapseInto (addChild g f) rest

/-- Fold the still-open frames into their parents (in the mutable
Python tree they are already attached) and return the root. -/
def collapseStack : List HTMLNode → HTMLNode
  | [] => rootNode
  | f :: rest => collapseInto f rest

/-- `parse_html` / `buildTree`: feed the event stream and return the
root node. -/
def buildTree (toks : List Tok) : HTMLNode :=
  collapseStack (buildStack toks)

/-! ### The label normalizer (`normalize_label`)

`unicodedata.normalize("NFKD", ...)`, `unicodedata.combining` and
`str.lower()` are external stdlib tables; they are modelled here on the
character repertoire this scraper meets (ASCII plus a few precomposed
Latin letters).  Every character outside the tables decomposes to
itself, is non-combining, and is case-stable. -/

def nfkdTable : List (Char × List Char) :=
  [('é', ['e', '́']), ('É', ['E', '́']),
   ('à', ['a', '̀']), ('À', ['A', '̀'])]

def combiningChar (c : Char) : Bool :=
  c = '́' || c = '̀'

/-- Single-character NFKD decomposition. -/
def nfkdChar (c : Char) : List Char :=
  match nfkdTable.find? (fun p => p.1 == c) with
  | some p => p.2
  | none => [c]

def nfkdL : List Char → List Char
  | [] => []
  | c :: cs => nfkdChar c ++ nfkdL cs

def lowerTable : List (Char × Char) :=
  [('A', 'a'), ('B', 'b'), ('C', 'c'), ('D', 'd'), ('E', 'e'), ('F', 'f'),
   ('G', 'g'), ('H', 'h'), ('I', 'i'), ('J', 'j'), ('K', 'k'), ('L', 'l'),
   ('M', 'm'), ('N', 'n'), ('O', 'o'), ('P', 'p'), ('Q', 'q'), ('R', 'r'),
   ('S', 's'), ('T', 't'), ('U', 'u'), ('V', 'v'), ('W', 'w'), ('X', 'x'),
   ('Y', 'y'), ('Z', 'z'), ('É', 'é'), ('À', 'à')]

/-- `str.lower()` on one character of the modelled repertoire. -/
def pyLowerChar (c : Char) : Char :=
  match lowerTable.find? (fun p => p.1 == c) with
  | some p => p.2
  | none => c

/-- `normalize_label`: NFKD-decompose, drop combining marks, strip,
lowercase (`ascii_only.strip().lower()`). -/
def normalize_label (value : String) : String :=
  String.mk
    ((trimL ((nfkdL value.data).filter (fun c => !combiningChar c))).map pyLowerChar)

/-! ### The nutrition extractor (`NutritionParser.parse`)

The Python method returns the literal empty dict `{}` when the
`nutritionLabel` container is absent and a fully-shaped dict otherwise;
that dichotomy is embedded as `Option NutritionRec` (`none` for `{}`).
The method is total: every lookup failure degrades to an absent/empty
field. -/

structure NutrientRow where
  label : String
  amount : String
  daily_value : String

structure NutritionRec where
  servings_per_container : Option String
  serving_size : Option String
  calories : Option String
  nutrients : List NutrientRow
  ingredients_text : String
  ingredients_list : List String

/-- The ingredients fields extracted from the located ingredients
table: `replace` removes every occurrence of the literal
"Ingredients:", the result is stripped, and the derived list splits on
commas, strips each part and keeps the truthy (non-empty) ones. -/
def ingredientsOf (t : HTMLNode) : String × List String :=
  let cleaned := pyStrip (pyReplace (t.text true) "Ingredients:" "")
  (cleaned,
   if cleaned = "" then []
   else (splitCommaL cleaned.data).filterMap (fun seg =>
     let q := trimL seg
     if q.isEmpty then none else some (String.mk q)))

def nutritionParse (root : HTMLNode) : Option NutritionRec :=
  match find_first root none (fun n => getAttr n "id" == some "nutritionLabel") with
  | none => none
  | some lc =>
    let servingsDiv := find_first lc (some "div")
      (fun n => n.class_list.contains "cbo_nn_LabelBottomBorderLabel")
    let spc : Option String :=
      match servingsDiv with
      | some sd =>
        match sd.children.filter (fun c => c.tag == "span") with
        | s0 :: _ => some (s0.text true)
        | [] => none
      | none => none
    let ssize : Option String :=
      match servingsDiv with
      | some sd =>
        match find_first sd (some "div") (fun n => n.class_list.contains "inline-div-left"),
              find_first sd (some "div") (fun n => n.class_list.contains "inline-div-right") with
        | some ld, some vd => some (ld.text true ++ " " ++ vd.text true)
        | _, _ => none
      | none => none
    let cal : Option String :=
      match find_first lc (some "div")
        (fun n => n.class_list.contains "cbo_nn_LabelSubHeader") with
      | some cd =>
        match find_first cd none
          (fun n => n.class_list.contains "font-22" || n.class_list.contains "font-21") with
        | some cv => some (cv.text true)
        | none => none
      | none => none
    let rows := find_all lc (some "div")
      (fun n => n.class_list.any
        (fun k => k == "cbo_nn_LabelBorderedSubHeader" || k == "cbo_nn_LabelNoBorderSubHeader"))
    let nutrients := rows.filterMap (fun row =>
      match find_first row none (fun n => n.class_list.contains "inline-div-left") with
      | none => none
      | some left =>
        match left.children.filter (fun c => c.tag == "span") with
        | [] => none
        | s0 :: restSpans =>
          let amount := match restSpans with
            | s1 :: _ => s1.text true
            | [] => ""
          let dv := match find_first row none
              (fun n => n.class_list.contains "inline-div-right") with
            | some r => r.text true
            | none => ""
          some { label := s0.text true, amount := amount, daily_value := dv })
    let ingr : String × List String :=
      match find_first lc (some "table")
        (fun n => n.class_list.contains "cbo_nn_Label_IngredientsTable") with
      | none => ("", [])
      | some t => ingredientsOf t
    some { servings_per_container := spc, serving_size := ssize, calories := cal,
           nutrients := nutrients, ingredients_text := ingr.1,
           ingredients_list := ingr.2 }

/-- `extractNutrition`: parse the markup and extract. -/
def extractNutrition (toks : List Tok) : Option NutritionRec :=
  nutritionParse (buildTree toks)

/-! ### The menu extractor (`MenuParser`)

The nutrition payload type is left abstract (`α`): the parser embeds
whatever the injected `nutrition_loader` collaborator returns, without
interpretation.  Alongside the categories, the embedding returns the
list of detail ids passed to the loader, in call order, so that
"invoked exactly once per item" is expressible. -/

structure CustomSel where
  prompt : String
  options : List String

structure MenuItem (α : Type) where
  detail_id : Int
  name : String
  labels : List String
  serving_size : String
  portion_options : List (Option String × String)
  components : List (String × List String)
  customizations : List CustomSel
  nutrition : α

structure MenuCat (α : Type) where
  name : String
  items : List (MenuItem α)

/-- Python truthiness of `node.attrs.get(k)`: present and non-empty. -/
def truthyAttr (k : String) (n : HTMLNode) : Bool :=
  match getAttr n k with
  | some v => v != ""
  | none => false

/-- `MenuParser._parse_item_row`.  Returns the parsed item (or `none`
for a malformed row) together with the detail ids passed to the
injected loader while handling this row. -/
def parse_item_row {α : Type} (lookup : Int → α) (row : HTMLNode) :
    Option (MenuItem α) × List Int :=
  let detail_id : Option Int :=
    match find_first row none (truthyAttr "data-detailoid") with
    | some dn =>
      match getAttr dn "data-detailoid" with
      | some v => pyInt? v
      | none => none
    | none => none
  match detail_id with
  | none => (none, [])
  | some did =>
    -- `if len(cells) < 4: return None`, then cells[1], cells[2], cells[3]:
    -- destructuring the first four cells is the same test.
    match row.children.filter (fun c => c.tag == "td") with
    | _ :: name_cell :: serving_cell :: portion_cell :: _ =>
      let name_anchor := find_first name_cell (some "a")
        (fun n => n.class_list.contains "cbo_nn_itemHover")
      let name := match name_anchor with
        | some a => a.text true
        | none => name_cell.text true
      let badges := match name_anchor with
        | some a => (find_all a (some "img") trueP).map
            (fun img => pyOr (getAttr img "title") (pyOr (getAttr img "alt") ""))
        | none => []
      let serving_size := serving_cell.text true
      let portion_select := find_first portion_cell (some "select") trueP
      let portion_values := match portion_select with
        | some ps => (find_all ps (some "option") trueP).map
            (fun o => (getAttr o "value", o.text true))
        | none => []
      let comps_list := (find_all name_cell (some "ul") trueP).filterMap (fun ul =>
        let entries := (find_all ul (some "li") trueP).map (fun li => li.text true)
        if entries.isEmpty then none else some ("list", entries))
      let comps_text := (find_all name_cell (some "div")
          (fun n => containsSubL "component".data
            (normalize_label (getAttrD n "class" "")).data)).filterMap (fun d =>
        let e := d.text true
        if e = "" then none else some ("text", [e]))
      let extra_selects := (find_all row (some "select") trueP).filterMap (fun s =>
        let label := pyOr (getAttr s "aria-label")
          (pyOr (getAttr s "title") (getAttrD s "name" ""))
        if (match portion_select with
            | some ps => nodeEq s ps
            | none => false) then none
        else
          let options := (find_all s (some "option") trueP).map (fun o => o.text true)
          if options.isEmpty then none
          else some { prompt := label, options := options })
      (some { detail_id := did, name := name,
              labels := badges.filter (fun b => b != ""),
              serving_size := serving_size, portion_options := portion_values,
              components := comps_list ++ comps_text,
              customizations := extra_selects, nutrition := lookup did },
       [did])
    | _ => (none, [])

/-- Append an item to the current (= most recently appended) category:
`current_category` in the Python loop always aliases the last element
of `categories`. -/
def addItemLast {α : Type} : List (MenuCat α) → MenuItem α → List (MenuCat α)
  | [], _ => []
  | [c], it => [{ c with items := c.items ++ [it] }]
  | c :: cs, it => c :: addItemLast cs it

/-- `"cbo_nn_itemGroupRow" in classes` for a row. -/
def isGroupRow (row : HTMLNode) : Bool :=
  row.class_list.contains "cbo_nn_itemGroupRow"

/-- `classes & {"cbo_nn_itemPrimaryRow", "cbo_nn_itemAlternateRow"}` is
non-empty for a row. -/
def isItemRow (row : HTMLNode) : Bool :=
  row.class_list.any
    (fun k => k == "cbo_nn_itemPrimaryRow" || k == "cbo_nn_itemAlternateRow")

/-- The name of a freshly started category: text of the first nested
div, or the fixed placeholder. -/
def groupName (row : HTMLNode) : String :=
  match find_first row (some "div") trueP with
  | some d => d.text true
  | none => "Untitled Category"

/-- The row loop of `MenuParser.parse`.  `cats = []` encodes
`current_category is None` (categories are only ever appended).  The
second component accumulates the loader call log. -/
def menuFold {α : Type} (lookup : Int → α) :
    List HTMLNode → List (MenuCat α) → List (MenuCat α) × List Int
  | [], cats => (cats, [])
  | row :: rows, cats =>
    if isGroupRow row then
      menuFold lookup rows (cats ++ [{ name := groupName row, items := [] }])
    else if isItemRow row then
      if cats.isEmpty then menuFold lookup rows cats
      else
        match parse_item_row lookup row with
        | (some it, log) =>
          let r := menuFold lookup rows (addItemLast cats it)
          (r.1, log ++ r.2)
        | (none, log) =>
          let r := menuFold lookup rows cats
          (r.1, log ++ r.2)
    else menuFold lookup rows cats

/-- `MenuParser.parse` from the parsed tree down: locate the first
table, walk its rows. -/
def menuParse {α : Type} (lookup : Int → α) (root : HTMLNode) :
    List (MenuCat α) × List Int :=
  match find_first root (some "table") trueP with
  | none => ([], [])
  | some table => menuFold lookup (find_all table (some "tr") trueP) []

/-- `extractMenu`: parse the markup and extract. -/
def extractMenu {α : Type} (toks : List Tok) (lookup : Int → α) :
    List (MenuCat α) × List Int :=
  menuParse lookup (buildTree toks)

/-! ### Basic facts about frames and the stack -/

theorem tag_addChild (g f : HTMLNode) : (addChild g f).tag = g.tag := by
  cases g; rfl

theorem attrs_addChild (g f : HTMLNode) : (addChild g f).attrs = g.attrs := by
  cases g; rfl

theorem children_addChild (g f : HTMLNode) :
    (addChild g f).children = g.children ++ [f] := by
  cases g; rfl

theorem tag_addText (n : HTMLNode) (s : String) : (addText n s).tag = n.tag := by
  cases n; rfl

theorem findMatch_cons_cons (tag : String) (f g : HTMLNode) (rest : List HTMLNode) :
    findMatch tag (f :: g :: rest) =
      if f.tag == tag then some 0 else (findMatch tag (g :: rest)).map (· + 1) := rfl

theorem findMatch_bound {tag : String} :
    ∀ {s : List HTMLNode} {p : Nat}, findMatch tag s = some p → p + 1 < s.length := by
  intro s
  induction s with
  | nil => intro p h; simp [findMatch] at h
  | cons f rest ih =>
    intro p h
    cases rest with
    | nil => simp [findMatch] at h
    | cons g rest2 =>
      rw [findMatch_cons_cons] at h
      by_cases hf : f.tag == tag
      · simp [hf] at h
        subst h
        simp
      · simp [hf] at h
        obtain ⟨q, hq, hpq⟩ := h
        have := ih hq
        subst hpq
        simp at this ⊢
        omega

theorem findMatch_none {tag : String} :
    ∀ {s : List HTMLNode}, (∀ f ∈ s, f.tag ≠ tag) → findMatch tag s = none := by
  intro s
  induction s with
  | nil => intro _; rfl
  | cons f rest ih =>
    intro h
    cases rest with
    | nil => rfl
    | cons g rest2 =>
      rw [findMatch_cons_cons]
      have hf : (f.tag == tag) = false := by
        simp
        exact h f (by simp)
      rw [hf]
      simp only [Bool.false_eq_true, if_false]
      rw [ih (fun x hx => h x (List.mem_cons_of_mem _ hx))]
      rfl

theorem closeTimes_length :
    ∀ (n : Nat) (s : List HTMLNode), n < s.length →
      (closeTimes n s).length = s.length - n := by
  intro n
  induction n with
  | zero => intro s _; rfl
  | succ m ih =>
    intro s h
    cases s with
    | nil => simp at h
    | cons f rest =>
      cases rest with
      | nil => simp at h
      | cons g rest2 =>
        rw [closeTimes]
        have h2 : (close1 (f :: g :: rest2)) = addChild g f :: rest2 := rfl
        rw [h2]
        have hlen : m < (addChild g f :: rest2).length := by
          simp at h ⊢; omega
        rw [ih _ hlen]
        simp at h ⊢

theorem map_tag_closeTimes :
    ∀ (n : Nat) (s : List HTMLNode), n < s.length →
      (closeTimes n s).map HTMLNode.tag = (s.drop n).map HTMLNode.tag := by
  intro n
  induction n with
  | zero => intro s _; rfl
  | succ m ih =>
    intro s h
    cases s with
    | nil => simp at h
    | cons f rest =>
      cases rest with
      | nil => simp at h
      | cons g rest2 =>
        rw [closeTimes]
        have h2 : (close1 (f :: g :: rest2)) = addChild g f :: rest2 := rfl
        rw [h2]
        have hlen : m < (addChild g f :: rest2).length := by
          simp at h ⊢; omega
        rw [ih _ hlen]
        cases m with
        | zero => simp [tag_addChild]
        | succ k => simp

/-- C2: an end tag whose name matches no open element is a no-op on the
stack, and an end tag whose nearest match is not the innermost closes
the match and every element opened after it (nothing below the match
stays open: the remaining open tags are exactly those strictly below
the match); concretely, "<div>a</b>b</div>" yields one div containing
text "ab" and "<div><span>x</div>" yields a div containing a span
containing "x" with nothing left open. -/
theorem claim_C2 :
    (∀ (s : List HTMLNode) (tag : String),
      (∀ f ∈ s, f.tag ≠ tag) → handleEnd s tag = s) ∧
    (∀ (s : List HTMLNode) (tag : String) (p : Nat),
      findMatch tag s = some p →
        (handleEnd s tag).map HTMLNode.tag = (s.drop (p + 1)).map HTMLNode.tag) ∧
    buildTree [.start "div" [], .data "a", .endTag "b", .data "b", .endTag "div"] =
      .mk "document" [] [.mk "div" [] [] ["a", "b"]] [] ∧
    buildTree [.start "div" [], .start "span" [], .data "x", .endTag "div"] =
      .mk "document" [] [.mk "div" [] [.mk "span" [] [] ["x"]] []] [] := by
  refine ⟨?_, ?_, rfl, rfl⟩
  · intro s tag h
    unfold handleEnd
    rw [findMatch_none h]
  · intro s tag p h
    unfold handleEnd
    rw [h]
    exact map_tag_closeTimes (p + 1) s (findMatch_bound h)

/-- Witness for C2 at concrete inputs: the no-op branch on a stack
holding an open div above the root, and the multi-close branch on a
stack where the match is not the innermost element. -/
theorem claim_C2_witness :
    handleEnd [HTMLNode.mk "div" [] [] [], rootNode] "b" =
      [HTMLNode.mk "div" [] [] [], rootNode] ∧
    (handleEnd [HTMLNode.mk "span" [] [] [], HTMLNode.mk "div" [] [] [], rootNode]
        "div").map HTMLNode.tag = ["document"] :=
  ⟨claim_C2.1 [HTMLNode.mk "div" [] [] [], rootNode] "b" (by decide),
   claim_C2.2.1 [HTMLNode.mk "span" [] [] [], HTMLNode.mk "div" [] [] [], rootNode]
     "div" 1 (by decide)⟩

/-! ### C4: missing nutrition-label root -/

/-- Is some node of the tree the nutrition-label container? -/
def hasNutritionRoot (root : HTMLNode) : Bool :=
  (nodeIter root).any (fun n => getAttr n "id" == some "nutritionLabel")

/-- C4: on any tree without an element whose id attribute equals
"nutritionLabel", `NutritionParser.parse` returns the empty record
(Python's literal `{}`, embedded as `none`): no field is populated, and
the parse is total (never raises). -/
theorem claim_C4 (root : HTMLNode) (h : hasNutritionRoot root = false) :
    nutritionParse root = none := by
  unfold nutritionParse
  have hfind : find_first root none
      (fun n => getAttr n "id" == some "nutritionLabel") = none := by
    unfold find_first
    rw [List.find?_eq_none]
    intro x hx
    unfold hasNutritionRoot at h
    rw [List.any_eq_false] at h
    have := h x hx
    simp [matchesQ]
    simpa using this
  rw [hfind]

/-- Witness for C4: a concrete fragment with ids but not the sentinel
one. -/
theorem claim_C4_witness :
    nutritionParse (buildTree
      [.start "div" [("id", "wrapper")], .data "no label here",
       .start "table" [("class", "cbo_nn_Label_IngredientsTable")],
       .endTag "table", .endTag "div"]) = none :=
  claim_C4 _ (by decide)

/-! ### C5: void tags never acquire children -/

mutual

/-- Every node of the tree whose tag is void has no children. -/
def voidOK : HTMLNode → Bool
  | .mk t _ cs _ => (!(VOID_TAGS.contains t) || cs.isEmpty) && voidOKList cs

def voidOKList : List HTMLNode → Bool
  | [] => true
  | c :: cs => voidOK c && voidOKList cs

end

theorem voidOKList_append (l1 l2 : List HTMLNode) :
    voidOKList (l1 ++ l2) = (voidOKList l1 && voidOKList l2) := by
  induction l1 with
  | nil => simp [voidOKList]
  | cons c cs ih => simp [voidOKList, ih, Bool.and_assoc]

/-- Invariant of every frame on the open-element stack: its tag is not
void (void elements are never pushed; the root is "document"), and the
children finished so far are all void-clean. -/
def frameOK (f : HTMLNode) : Prop :=
  VOID_TAGS.contains f.tag = false ∧ voidOKList f.children = true

def stackOK (s : List HTMLNode) : Prop := ∀ f ∈ s, frameOK f

theorem voidOK_of_frameOK {f : HTMLNode} (h : frameOK f) : voidOK f = true := by
  obtain ⟨h1, h2⟩ := h
  cases f with
  | mk t a cs ps =>
    simp only [HTMLNode.tag] at h1
    simp only [HTMLNode.children] at h2
    rw [voidOK, h1, h2]
    simp

theorem frameOK_addChild {g f : HTMLNode} (hg : frameOK g) (hf : voidOK f = true) :
    frameOK (addChild g f) := by
  obtain ⟨h1, h2⟩ := hg
  refine ⟨by rwa [tag_addChild], ?_⟩
  rw [children_addChild, voidOKList_append, h2]
  simp [voidOKList, hf]

theorem frameOK_addText {f : HTMLNode} (s : String) (hf : frameOK f) :
    frameOK (addText f s) := by
  obtain ⟨h1, h2⟩ := hf
  cases f with
  | mk t a cs ps => exact ⟨h1, h2⟩

theorem voidOK_leaf (tg : String) (attrs : List (String × String)) :
    voidOK (.mk tg attrs [] []) = true := by
  rw [voidOK]
  simp [voidOKList]

theorem frameOK_push (tg : String) (attrs : List (String × String))
    (hv : VOID_TAGS.contains tg = false) : frameOK (.mk tg attrs [] []) := by
  exact ⟨hv, rfl⟩

theorem stackOK_close1 {s : List HTMLNode} (h : stackOK s) : stackOK (close1 s) := by
  cases s with
  | nil => exact h
  | cons f rest =>
    cases rest with
    | nil => exact h
    | cons g rest2 =>
      intro x hx
      rw [close1] at hx
      rw [List.mem_cons] at hx
      rcases hx with rfl | hx
      · exact frameOK_addChild (h g (by simp)) (voidOK_of_frameOK (h f (by simp)))
      · exact h x (by simp [hx])

theorem stackOK_closeTimes {n : Nat} {s : List HTMLNode} (h : stackOK s) :
    stackOK (closeTimes n s) := by
  induction n generalizing s with
  | zero => exact h
  | succ m ih => exact ih (stackOK_close1 h)

theorem stackOK_step {s : List HTMLNode} {t : Tok} (h : stackOK s) :
    stackOK (stepTok s t) := by
  have hend : ∀ (s2 : List HTMLNode) (tg : String), stackOK s2 →
      stackOK (handleEnd s2 tg) := by
    intro s2 tg h2
    unfold handleEnd
    cases findMatch tg s2 with
    | none => exact h2
    | some p => exact stackOK_closeTimes h2
  have hstart : ∀ (s2 : List HTMLNode) (tg : String) (attrs : List (String × String)),
      stackOK s2 → stackOK (handleStart s2 tg attrs) := by
    intro s2 tg attrs h2
    cases s2 with
    | nil => exact h2
    | cons top rest =>
      have hred : handleStart (top :: rest) tg attrs =
          if VOID_TAGS.contains tg then addChild top (.mk tg attrs [] []) :: rest
          else .mk tg attrs [] [] :: top :: rest := rfl
      rw [hred]
      by_cases hv : VOID_TAGS.contains tg = true
      · rw [if_pos hv]
        intro x hx
        rw [List.mem_cons] at hx
        rcases hx with rfl | hx
        · exact frameOK_addChild (h2 top (by simp)) (voidOK_leaf tg attrs)
        · exact h2 x (by simp [hx])
      · rw [if_neg hv]
        intro x hx
        rw [List.mem_cons] at hx
        rcases hx with rfl | hx
        · exact frameOK_push tg attrs (by simpa using hv)
        · exact h2 x hx
  cases t with
  | start tg attrs => exact hstart s tg attrs h
  | startEnd tg attrs => exact hend _ tg (hstart s tg attrs h)
  | endTag tg => exact hend s tg h
  | data str =>
    show stackOK (handleData s str)
    cases s with
    | nil =>
      unfold handleData
      by_cases hs : str = ""
      · rw [if_pos hs]; exact h
      · rw [if_neg hs]; exact h
    | cons top rest =>
      have hred : handleData (top :: rest) str =
          if str = "" then top :: rest else addText top str :: rest := rfl
      rw [hred]
      by_cases hs : str = ""
      · rw [if_pos hs]; exact h
      · rw [if_neg hs]
        intro x hx
        rw [List.mem_cons] at hx
        rcases hx with rfl | hx
        · exact frameOK_addText _ (h top (by simp))
        · exact h x (by simp [hx])

theorem stackOK_foldl {s : List HTMLNode} (toks : List Tok) (h : stackOK s) :
    stackOK (List.foldl stepTok s toks) := by
  induction toks generalizing s with
  | nil => exact h
  | cons t ts ih => exact ih (stackOK_step h)

theorem voidOK_collapseInto :
    ∀ (rest : List HTMLNode) (f : HTMLNode), voidOK f = true → stackOK rest →
      voidOK (collapseInto f rest) = true := by
  intro rest
  induction rest with
  | nil => intro f hf _; exact hf
  | cons g rest2 ih =>
    intro f hf h
    rw [collapseInto]
    refine ih _ ?_ (fun x hx => h x (by simp [hx]))
    exact voidOK_of_frameOK (frameOK_addChild (h g (by simp)) hf)

/-- C5: in every tree `buildTree` produces, a node whose tag is in the
fixed void set has an empty children list — regardless of how the tag
is written in the source (tags are lowercased by the tokenizer), and
even when the void element is followed by a nested end tag for it: the
intervening text attaches to the void element's parent and the end tag
is a no-op. -/
theorem claim_C5 :
    (∀ toks : List Tok, voidOK (buildTree toks) = true) ∧
    buildTree [.start "div" [], .start "br" [], .data "t", .endTag "br",
        .endTag "div"] =
      .mk "document" [] [.mk "div" [] [.mk "br" [] [] []] ["t"]] [] ∧
    buildTree [.start "BR" []] = .mk "document" [] [.mk "br" [] [] []] [] := by
  refine ⟨?_, rfl, rfl⟩
  intro toks
  have hroot : stackOK [rootNode] := by
    intro x hx
    simp at hx
    subst hx
    exact ⟨by decide, rfl⟩
  have h := stackOK_foldl (s := [rootNode]) (toks.map lowerTok) hroot
  unfold buildTree buildStack
  cases hs : List.foldl stepTok [rootNode] (toks.map lowerTok) with
  | nil => rw [collapseStack]; decide
  | cons f rest =>
    rw [collapseStack]
    rw [hs] at h
    exact voidOK_collapseInto rest f
      (voidOK_of_frameOK (h f (by simp)))
      (fun x hx => h x (by simp [hx]))

/-! ### C10: the stack never empties and the root is never closed -/

/-- The bottom of the stack is the document root frame created at
initialization (its tag and attributes never change; only its children
and text fragments grow). -/
def bottomDoc (s : List HTMLNode) : Prop :=
  ∃ n, s.getLast? = some n ∧ n.tag = "document" ∧ n.attrs = []

theorem attrs_addText (n : HTMLNode) (s : String) : (addText n s).attrs = n.attrs := by
  cases n; rfl

theorem bottomDoc_cons_cons {x y : HTMLNode} {rest : List HTMLNode} :
    bottomDoc (x :: y :: rest) ↔ bottomDoc (y :: rest) := by
  unfold bottomDoc
  rw [List.getLast?_cons_cons]

theorem bottomDoc_singleton {x : HTMLNode} :
    bottomDoc [x] ↔ x.tag = "document" ∧ x.attrs = [] := by
  constructor
  · rintro ⟨n, hn, ht, ha⟩
    have hx : x = n := by simpa using hn
    subst hx
    exact ⟨ht, ha⟩
  · rintro ⟨ht, ha⟩
    exact ⟨x, by simp, ht, ha⟩

theorem close1_ne {s : List HTMLNode} (h : s ≠ []) : close1 s ≠ [] := by
  cases s with
  | nil => exact h
  | cons f rest =>
    cases rest with
    | nil => simp [close1]
    | cons g rest2 => simp [close1]

theorem close1_bottomDoc {s : List HTMLNode} (h : bottomDoc s) :
    bottomDoc (close1 s) := by
  cases s with
  | nil => exact h
  | cons f rest =>
    cases rest with
    | nil => exact h
    | cons g rest2 =>
      rw [bottomDoc_cons_cons] at h
      show bottomDoc (addChild g f :: rest2)
      cases rest2 with
      | nil =>
        rw [bottomDoc_singleton] at h ⊢
        rw [tag_addChild, attrs_addChild]
        exact h
      | cons k rest3 =>
        rw [bottomDoc_cons_cons]
        rwa [bottomDoc_cons_cons] at h

theorem closeTimes_ne_and_bottom {n : Nat} {s : List HTMLNode}
    (h1 : s ≠ []) (h2 : bottomDoc s) :
    closeTimes n s ≠ [] ∧ bottomDoc (closeTimes n s) := by
  induction n generalizing s with
  | zero => exact ⟨h1, h2⟩
  | succ m ih => exact ih (close1_ne h1) (close1_bottomDoc h2)

theorem step_ne_and_bottom {s : List HTMLNode} {t : Tok}
    (h1 : s ≠ []) (h2 : bottomDoc s) :
    stepTok s t ≠ [] ∧ bottomDoc (stepTok s t) := by
  have hend : ∀ (s2 : List HTMLNode) (tg : String), s2 ≠ [] → bottomDoc s2 →
      handleEnd s2 tg ≠ [] ∧ bottomDoc (handleEnd s2 tg) := by
    intro s2 tg hne hbd
    unfold handleEnd
    cases findMatch tg s2 with
    | none => exact ⟨hne, hbd⟩
    | some p => exact closeTimes_ne_and_bottom hne hbd
  have hstart : ∀ (s2 : List HTMLNode) (tg : String) (attrs : List (String × String)),
      s2 ≠ [] → bottomDoc s2 →
      handleStart s2 tg attrs ≠ [] ∧ bottomDoc (handleStart s2 tg attrs) := by
    intro s2 tg attrs hne hbd
    cases s2 with
    | nil => exact absurd rfl hne
    | cons top rest =>
      have hred : handleStart (top :: rest) tg attrs =
          if VOID_TAGS.contains tg then addChild top (.mk tg attrs [] []) :: rest
          else .mk tg attrs [] [] :: top :: rest := rfl
      rw [hred]
      by_cases hv : VOID_TAGS.contains tg = true
      · rw [if_pos hv]
        refine ⟨by simp, ?_⟩
        cases rest with
        | nil =>
          rw [bottomDoc_singleton] at hbd ⊢
          rw [tag_addChild, attrs_addChild]
          exact hbd
        | cons g rest2 =>
          rw [bottomDoc_cons_cons]
          rwa [bottomDoc_cons_cons] at hbd
      · rw [if_neg hv]
        exact ⟨by simp, by rwa [bottomDoc_cons_cons]⟩
  cases t with
  | start tg attrs => exact hstart s tg attrs h1 h2
  | startEnd tg attrs =>
    obtain ⟨ha, hb⟩ := hstart s tg attrs h1 h2
    exact hend _ tg ha hb
  | endTag tg => exact hend s tg h1 h2
  | data str =>
    show handleData s str ≠ [] ∧ bottomDoc (handleData s str)
    cases s with
    | nil => exact absurd rfl h1
    | cons top rest =>
      have hred : handleData (top :: rest) str =
          if str = "" then top :: rest else addText top str :: rest := rfl
      rw [hred]
      by_cases hs : str = ""
      · rw [if_pos hs]; exact ⟨h1, h2⟩
      · rw [if_neg hs]
        refine ⟨by simp, ?_⟩
        cases rest with
        | nil =>
          rw [bottomDoc_singleton] at h2 ⊢
          rw [tag_addText, attrs_addText]
          exact h2
        | cons g rest2 =>
          rw [bottomDoc_cons_cons]
          rwa [bottomDoc_cons_cons] at h2

theorem foldl_ne_and_bottom (toks : List Tok) {s : List HTMLNode}
    (h1 : s ≠ []) (h2 : bottomDoc s) :
    List.foldl stepTok s toks ≠ [] ∧ bottomDoc (List.foldl stepTok s toks) := by
  induction toks generalizing s with
  | nil => exact ⟨h1, h2⟩
  | cons t ts ih =>
    obtain ⟨ha, hb⟩ := step_ne_and_bottom (t := t) h1 h2
    exact ih ha hb

theorem collapseInto_doc :
    ∀ (rest : List HTMLNode) (f : HTMLNode), bottomDoc (f :: rest) →
      (collapseInto f rest).tag = "document" ∧ (collapseInto f rest).attrs = [] := by
  intro rest
  induction rest with
  | nil =>
    intro f h
    rw [bottomDoc_singleton] at h
    exact h
  | cons g rest2 ih =>
    intro f h
    rw [collapseInto]
    refine ih (addChild g f) ?_
    rw [bottomDoc_cons_cons] at h
    cases rest2 with
    | nil =>
      rw [bottomDoc_singleton] at h ⊢
      rw [tag_addChild, attrs_addChild]
      exact h
    | cons k rest3 =>
      rw [bottomDoc_cons_cons]
      rwa [bottomDoc_cons_cons] at h

/-- C10: at every point of tree building the open-element stack is
non-empty with the document root frame at its bottom; `handle_endtag`
never scans index 0, so no end tag — not even one named "document" —
can close the root; text data therefore always has a current element to
attach to, and `buildTree` always returns the root created at
initialization (tag "document", no attributes). -/
theorem claim_C10 :
    (∀ toks : List Tok, buildStack toks ≠ [] ∧ bottomDoc (buildStack toks) ∧
      (buildTree toks).tag = "document" ∧ (buildTree toks).attrs = []) ∧
    buildStack [.endTag "document"] = [rootNode] ∧
    buildStack [.data "x"] = [.mk "document" [] [] ["x"]] := by
  refine ⟨?_, rfl, rfl⟩
  intro toks
  have hinit : bottomDoc [rootNode] := ⟨rootNode, by simp, rfl, rfl⟩
  obtain ⟨h1, h2⟩ := foldl_ne_and_bottom (toks.map lowerTok)
    (s := [rootNode]) (by simp) hinit
  refine ⟨h1, h2, ?_⟩
  unfold buildTree
  cases hs : buildStack toks with
  | nil => exact absurd hs h1
  | cons f rest =>
    rw [collapseStack]
    unfold buildStack at hs
    rw [hs] at h2
    exact collapseInto_doc rest f h2

/-! ### C8 and C9: skipped item rows -/

theorem parse_item_row_no_id {α : Type} (lookup : Int → α) (row : HTMLNode)
    (h : ∀ n ∈ nodeIter row, (getAttr n "data-detailoid").bind pyInt? = none) :
    parse_item_row lookup row = (none, []) := by
  unfold parse_item_row
  cases hf : find_first row none (truthyAttr "data-detailoid") with
  | none => simp
  | some dn =>
    have hmem : dn ∈ nodeIter row := List.mem_of_find?_eq_some hf
    have hpred := List.find?_some hf
    have htr : truthyAttr "data-detailoid" dn = true := by
      simpa [matchesQ] using hpred
    unfold truthyAttr at htr
    cases hv : getAttr dn "data-detailoid" with
    | none => rw [hv] at htr; simp at htr
    | some v =>
      have hpy : pyInt? v = none := by
        have h2 := h dn hmem
        rw [hv] at h2
        simpa using h2
      simp [hv, hpy]

theorem parse_item_row_few_cells {α : Type} (lookup : Int → α) (row : HTMLNode)
    (h : (row.children.filter (fun c => c.tag == "td")).length < 4) :
    parse_item_row lookup row = (none, []) := by
  unfold parse_item_row
  cases hf : find_first row none (truthyAttr "data-detailoid") with
  | none => simp
  | some dn =>
    cases hv : getAttr dn "data-detailoid" with
    | none => simp [hv]
    | some v =>
      cases hpy : pyInt? v with
      | none => simp [hv, hpy]
      | some did =>
        simp only [hv, hpy]
        cases hc : row.children.filter (fun c => c.tag == "td") with
        | nil => rfl
        | cons a rest1 =>
          cases rest1 with
          | nil => rfl
          | cons b rest2 =>
            cases rest2 with
            | nil => rfl
            | cons c2 rest3 =>
              cases rest3 with
              | nil => rfl
              | cons d4 rest4 =>
                rw [hc] at h
                simp at h
                omega

/-- A non-group row is a no-op when no category has been started yet
(`current_category is None`): item rows are skipped before parsing and
other rows are ignored. -/
theorem menuFold_cons_skip {α : Type} (lookup : Int → α) (r : HTMLNode)
    (rows : List HTMLNode) (hgr : isGroupRow r = false) :
    menuFold lookup (r :: rows) [] = menuFold lookup rows [] := by
  conv_lhs => rw [menuFold]
  rw [if_neg (show ¬ isGroupRow r = true by simp [hgr])]
  by_cases hir : isItemRow r = true
  · rw [if_pos hir]
    rw [if_pos (show List.isEmpty ([] : List (MenuCat α)) = true from rfl)]
  · rw [if_neg hir]

/-- An item row that parses to absent contributes nothing: no item, no
loader call. -/
theorem menuFold_cons_bad {α : Type} (lookup : Int → α) (r : HTMLNode)
    (rows : List HTMLNode) (cats : List (MenuCat α))
    (hgr : isGroupRow r = false) (hir : isItemRow r = true)
    (hp : parse_item_row lookup r = (none, [])) :
    menuFold lookup (r :: rows) cats = menuFold lookup rows cats := by
  conv_lhs => rw [menuFold]
  rw [if_neg (show ¬ isGroupRow r = true by simp [hgr])]
  rw [if_pos hir]
  cases cats with
  | nil => rw [if_pos (show List.isEmpty ([] : List (MenuCat α)) = true from rfl)]
  | cons c cs =>
    rw [if_neg (show ¬ List.isEmpty (c :: cs) = true by simp)]
    rw [hp]
    simp

/-- Congruence of one row step: if two row suffixes fold identically
from every category state, prepending the same row preserves that. -/
theorem menuFold_cons_eq {α : Type} (lookup : Int → α) (r : HTMLNode)
    (rows1 rows2 : List HTMLNode)
    (hrec : ∀ cats : List (MenuCat α),
      menuFold lookup rows1 cats = menuFold lookup rows2 cats) :
    ∀ cats : List (MenuCat α),
      menuFold lookup (r :: rows1) cats = menuFold lookup (r :: rows2) cats := by
  intro cats
  conv_lhs => rw [menuFold]
  conv_rhs => rw [menuFold]
  by_cases hgr : isGroupRow r = true
  · rw [if_pos hgr, if_pos hgr]
    exact hrec _
  · rw [if_neg hgr, if_neg hgr]
    by_cases hir : isItemRow r = true
    · rw [if_pos hir, if_pos hir]
      by_cases hce : cats.isEmpty = true
      · rw [if_pos hce, if_pos hce]
        exact hrec _
      · rw [if_neg hce, if_neg hce]
        cases hpr : parse_item_row lookup r with
        | mk o log =>
          cases o with
          | some it => simp only [hrec]
          | none => simp only [hrec]
    · rw [if_neg hir, if_neg hir]
      exact hrec _

theorem menuFold_drop_bad_item {α : Type} (lookup : Int → α) (row : HTMLNode)
    (l2 : List HTMLNode)
    (hg : isGroupRow row = false) (hi : isItemRow row = true)
    (hp : parse_item_row lookup row = (none, [])) :
    ∀ (l1 : List HTMLNode) (cats : List (MenuCat α)),
      menuFold lookup (l1 ++ row :: l2) cats = menuFold lookup (l1 ++ l2) cats := by
  intro l1
  induction l1 with
  | nil =>
    intro cats
    simp only [List.nil_append]
    exact menuFold_cons_bad lookup row l2 cats hg hi hp
  | cons r l1 ih =>
    intro cats
    simp only [List.cons_append]
    exact menuFold_cons_eq lookup r _ _ ih cats

/-- C8: an item row with no numeric detail id anywhere below it (the
`data-detailoid` attribute absent or non-numeric on every descendant),
or with fewer than 4 direct td cells, parses to absent — the loader is
not invoked for it — and dropping such a row from the row walk leaves
the extraction of every other row and category unchanged. -/
theorem claim_C8 :
    (∀ (α : Type) (lookup : Int → α) (row : HTMLNode),
      (∀ n ∈ nodeIter row, (getAttr n "data-detailoid").bind pyInt? = none) →
      parse_item_row lookup row = (none, [])) ∧
    (∀ (α : Type) (lookup : Int → α) (row : HTMLNode),
      (row.children.filter (fun c => c.tag == "td")).length < 4 →
      parse_item_row lookup row = (none, [])) ∧
    (∀ (α : Type) (lookup : Int → α) (row : HTMLNode) (l1 l2 : List HTMLNode)
      (cats : List (MenuCat α)),
      isGroupRow row = false → isItemRow row = true →
      parse_item_row lookup row = (none, []) →
      menuFold lookup (l1 ++ row :: l2) cats = menuFold lookup (l1 ++ l2) cats) :=
  ⟨fun _ lookup row h => parse_item_row_no_id lookup row h,
   fun _ lookup row h => parse_item_row_few_cells lookup row h,
   fun _ lookup row l1 l2 cats hg hi hp =>
     menuFold_drop_bad_item lookup row l2 hg hi hp l1 cats⟩

/-- Witness for C8: a primary-striped row with no detail id parses to
absent, a row whose only detail id sits outside any td (0 cells) parses
to absent, and dropping the bad row leaves the walk of the remaining
rows unchanged. -/
theorem claim_C8_witness :
    parse_item_row (fun d : Int => d)
      (HTMLNode.mk "tr" [("class", "cbo_nn_itemPrimaryRow")]
        [HTMLNode.mk "td" [] [] ["x"]] []) = (none, []) ∧
    parse_item_row (fun d : Int => d)
      (HTMLNode.mk "tr" [("class", "cbo_nn_itemPrimaryRow")]
        [HTMLNode.mk "span" [("data-detailoid", "12")] [] []] []) = (none, []) ∧
    menuFold (fun d : Int => d)
      ([] ++ HTMLNode.mk "tr" [("class", "cbo_nn_itemPrimaryRow")]
        [HTMLNode.mk "td" [] [] ["x"]] [] :: []) [] =
      menuFold (fun d : Int => d) ([] ++ []) [] :=
  ⟨claim_C8.1 Int (fun d => d) _ (by decide),
   claim_C8.2.1 Int (fun d => d) _ (by decide),
   claim_C8.2.2 Int (fun d => d)
     (HTMLNode.mk "tr" [("class", "cbo_nn_itemPrimaryRow")]
       [HTMLNode.mk "td" [] [] ["x"]] []) [] [] [] (by decide) (by decide)
     (claim_C8.1 Int (fun d => d) _ (by decide))⟩

theorem menuFold_drop_before_header {α : Type} (lookup : Int → α)
    (row : HTMLNode) (l2 : List HTMLNode)
    (hg : isGroupRow row = false) (_hi : isItemRow row = true) :
    ∀ l1 : List HTMLNode, (∀ r ∈ l1, isGroupRow r = false) →
      menuFold lookup (l1 ++ row :: l2) [] = menuFold lookup (l1 ++ l2) [] := by
  intro l1
  induction l1 with
  | nil =>
    intro _
    simp only [List.nil_append]
    exact menuFold_cons_skip lookup row l2 hg
  | cons r l1 ih =>
    intro h
    simp only [List.cons_append]
    rw [menuFold_cons_skip lookup r (l1 ++ row :: l2) (h r (by simp)),
        menuFold_cons_skip lookup r (l1 ++ l2) (h r (by simp))]
    exact ih (fun x hx => h x (by simp [hx]))

/-- C9: an item row (primary or alternate striping) that appears in the
table's row walk before any category-header row is silently dropped:
the extraction result — categories and loader call log alike — is the
same as if the row were not there, so no category contains an item from
it and it creates no category. -/
theorem claim_C9 {α : Type} (lookup : Int → α) (root T row : HTMLNode)
    (l1 l2 : List HTMLNode)
    (hT : find_first root (some "table") trueP = some T)
    (hrows : find_all T (some "tr") trueP = l1 ++ row :: l2)
    (hl1 : ∀ r ∈ l1, isGroupRow r = false)
    (hitem : isItemRow row = true)
    (hgroup : isGroupRow row = false) :
    menuParse lookup root = menuFold lookup (l1 ++ l2) [] := by
  unfold menuParse
  rw [hT]
  show menuFold lookup (find_all T (some "tr") trueP) [] =
    menuFold lookup (l1 ++ l2) []
  rw [hrows]
  exact menuFold_drop_before_header lookup row l2 hgroup hitem l1 hl1

/-- Witness for C9: a concrete table whose first row is an alternate
item row followed by a category header; the leading item row is
dropped. -/
theorem claim_C9_witness :
    menuParse (fun d : Int => d)
      (HTMLNode.mk "document" []
        [HTMLNode.mk "table" []
          [HTMLNode.mk "tr" [("class", "cbo_nn_itemAlternateRow")] [] [],
           HTMLNode.mk "tr" [("class", "cbo_nn_itemGroupRow")]
             [HTMLNode.mk "div" [] [] ["Cat"]] []] []] []) =
      menuFold (fun d : Int => d)
        ([] ++ [HTMLNode.mk "tr" [("class", "cbo_nn_itemGroupRow")]
          [HTMLNode.mk "div" [] [] ["Cat"]] []]) [] :=
  claim_C9 (fun d : Int => d)
    (HTMLNode.mk "document" []
      [HTMLNode.mk "table" []
        [HTMLNode.mk "tr" [("class", "cbo_nn_itemAlternateRow")] [] [],
         HTMLNode.mk "tr" [("class", "cbo_nn_itemGroupRow")]
           [HTMLNode.mk "div" [] [] ["Cat"]] []] []] [])
    (HTMLNode.mk "table" []
      [HTMLNode.mk "tr" [("class", "cbo_nn_itemAlternateRow")] [] [],
       HTMLNode.mk "tr" [("class", "cbo_nn_itemGroupRow")]
         [HTMLNode.mk "div" [] [] ["Cat"]] []] [])
    (HTMLNode.mk "tr" [("class", "cbo_nn_itemAlternateRow")] [] [])
    []
    [HTMLNode.mk "tr" [("class", "cbo_nn_itemGroupRow")]
      [HTMLNode.mk "div" [] [] ["Cat"]] []]
    rfl rfl (by simp) (by decide) (by decide)

/-! ### C1: text extraction versus document order -/

/-- All character data delivered by the tokenizer, concatenated in
document order. -/
def docTextL : List Tok → List Char
  | [] => []
  | .data s :: ts => s.data ++ docTextL ts
  | .start _ _ :: ts => docTextL ts
  | .startEnd _ _ :: ts => docTextL ts
  | .endTag _ :: ts => docTextL ts

def docText (toks : List Tok) : String := String.mk (docTextL toks)

/-- Streams in which every text datum arrives while the current element
is still childless: a data event is only allowed at the start, right
after a non-void start tag, or right after another data event.  For such
streams each element's own text precedes all of its child elements, so
the text(False) order (own fragments, then children) coincides with
document order. -/
def streamOKFrom : Bool → List Tok → Bool
  | allow, .data _ :: ts => allow && streamOKFrom true ts
  | _, .start t _ :: ts => streamOKFrom (!(VOID_TAGS.contains (asciiLower t))) ts
  | _, .startEnd _ _ :: ts => streamOKFrom false ts
  | _, .endTag _ :: ts => streamOKFrom false ts
  | _, [] => true

def streamOK (ts : List Tok) : Bool := streamOKFrom true ts

/-- The raw text the final tree would carry if building stopped now. -/
def rawState (s : List HTMLNode) : List Char := textRawL (collapseStack s)

/-- The top frame (if any) has no children yet. -/
def topChildless : List HTMLNode → Prop
  | [] => True
  | f :: _ => f.children = []

theorem children_addText (n : HTMLNode) (s : String) :
    (addText n s).children = n.children := by
  cases n; rfl

theorem textRawL_leaf (t : String) (a : List (String × String)) :
    textRawL (.mk t a [] []) = [] := rfl

theorem textRawListL_append (l1 l2 : List HTMLNode) :
    textRawListL (l1 ++ l2) = textRawListL l1 ++ textRawListL l2 := by
  induction l1 with
  | nil => rfl
  | cons c cs ih => simp [textRawListL, ih]

theorem textRawL_addChild (g f : HTMLNode) :
    textRawL (addChild g f) = textRawL g ++ textRawL f := by
  cases g with
  | mk t a cs ps =>
    show textRawL (.mk t a (cs ++ [f]) ps) = _
    simp only [textRawL, textRawListL_append, textRawListL]
    simp

theorem textRawL_addText (n : HTMLNode) (s : String) (h : n.children = []) :
    textRawL (addText n s) = textRawL n ++ s.data := by
  cases n with
  | mk t a cs ps =>
    simp only [HTMLNode.children] at h
    subst h
    show textRawL (.mk t a [] (ps ++ [s])) = _
    simp only [textRawL, textRawListL]
    simp

theorem rawState_cons : ∀ (rest : List HTMLNode) (f : HTMLNode),
    rawState (f :: rest) = rawState rest ++ textRawL f := by
  intro rest
  induction rest with
  | nil => intro f; rfl
  | cons g rest2 ih =>
    intro f
    show rawState (addChild g f :: rest2) = rawState (g :: rest2) ++ textRawL f
    rw [ih (addChild g f), ih g, textRawL_addChild]
    simp

theorem rawState_close1 (s : List HTMLNode) : rawState (close1 s) = rawState s := by
  cases s with
  | nil => rfl
  | cons f rest =>
    cases rest with
    | nil => rfl
    | cons g rest2 => rfl

theorem rawState_closeTimes (n : Nat) (s : List HTMLNode) :
    rawState (closeTimes n s) = rawState s := by
  induction n generalizing s with
  | zero => rfl
  | succ m ih =>
    show rawState (closeTimes m (close1 s)) = rawState s
    rw [ih (close1 s), rawState_close1]

theorem rawState_handleEnd (s : List HTMLNode) (t : String) :
    rawState (handleEnd s t) = rawState s := by
  unfold handleEnd
  cases findMatch t s with
  | none => rfl
  | some p => exact rawState_closeTimes (p + 1) s

theorem rawState_handleStart (s : List HTMLNode) (t : String)
    (a : List (String × String)) :
    rawState (handleStart s t a) = rawState s := by
  cases s with
  | nil => rfl
  | cons top rest =>
    have hred : handleStart (top :: rest) t a =
        if VOID_TAGS.contains t then addChild top (.mk t a [] []) :: rest
        else .mk t a [] [] :: top :: rest := rfl
    rw [hred]
    by_cases hv : VOID_TAGS.contains t = true
    · rw [if_pos hv, rawState_cons, rawState_cons, textRawL_addChild, textRawL_leaf]
      simp
    · rw [if_neg hv, rawState_cons, textRawL_leaf]
      simp

theorem closeTimes_ne {n : Nat} {s : List HTMLNode} (h : s ≠ []) :
    closeTimes n s ≠ [] := by
  induction n generalizing s with
  | zero => exact h
  | succ m ih => exact ih (close1_ne h)

theorem handleStart_ne {s : List HTMLNode} (t : String)
    (a : List (String × String)) (h : s ≠ []) : handleStart s t a ≠ [] := by
  cases s with
  | nil => exact absurd rfl h
  | cons top rest =>
    have hred : handleStart (top :: rest) t a =
        if VOID_TAGS.contains t then addChild top (.mk t a [] []) :: rest
        else .mk t a [] [] :: top :: rest := rfl
    rw [hred]
    by_cases hv : VOID_TAGS.contains t = true
    · rw [if_pos hv]; simp
    · rw [if_neg hv]; simp

theorem handleEnd_ne {s : List HTMLNode} (t : String) (h : s ≠ []) :
    handleEnd s t ≠ [] := by
  unfold handleEnd
  cases findMatch t s with
  | none => exact h
  | some p => exact closeTimes_ne h

theorem handleData_ne {s : List HTMLNode} (d : String) (h : s ≠ []) :
    handleData s d ≠ [] := by
  unfold handleData
  by_cases hd : d = ""
  · rw [if_pos hd]; exact h
  · rw [if_neg hd]
    cases s with
    | nil => exact absurd rfl h
    | cons top rest => simp

theorem stepTok_ne {s : List HTMLNode} {t : Tok} (h : s ≠ []) :
    stepTok s t ≠ [] := by
  cases t with
  | start tg a => exact handleStart_ne tg a h
  | startEnd tg a => exact handleEnd_ne tg (handleStart_ne tg a h)
  | endTag tg => exact handleEnd_ne tg h
  | data d => exact handleData_ne d h

/-- The central invariant: over a stream in which data only arrives at
childless tops, the raw text of the (collapsed) state grows by exactly
the data payloads, in document order. -/
theorem buildText_inv :
    ∀ (ts : List Tok) (allow : Bool) (s : List HTMLNode),
      streamOKFrom allow ts = true →
      (allow = true → topChildless s) →
      s ≠ [] →
      rawState (List.foldl stepTok s (ts.map lowerTok)) = rawState s ++ docTextL ts := by
  intro ts
  induction ts with
  | nil =>
    intro allow s _ _ _
    simp [docTextL]
  | cons t ts ih =>
    intro allow s hok himp hne
    cases t with
    | data str =>
      have hok2 : allow = true ∧ streamOKFrom true ts = true := by
        have : (allow && streamOKFrom true ts) = true := hok
        simpa using this
      have htop : topChildless s := himp hok2.1
      show rawState (List.foldl stepTok (handleData s str) (ts.map lowerTok)) =
        rawState s ++ docTextL (.data str :: ts)
      by_cases hstr : str = ""
      · subst hstr
        have hd : handleData s "" = s := by unfold handleData; rw [if_pos rfl]
        rw [hd, ih true s hok2.2 (fun _ => htop) hne]
        rfl
      · cases s with
        | nil => exact absurd rfl hne
        | cons top rest =>
          have hd : handleData (top :: rest) str = addText top str :: rest := by
            unfold handleData; rw [if_neg hstr]
          rw [hd]
          have htop2 : top.children = [] := htop
          have hnew : topChildless (addText top str :: rest) := by
            show (addText top str).children = []
            rw [children_addText]; exact htop2
          rw [ih true _ hok2.2 (fun _ => hnew) (by simp)]
          rw [rawState_cons, textRawL_addText top str htop2, rawState_cons]
          show rawState rest ++ (textRawL top ++ str.data) ++ docTextL ts =
            rawState rest ++ textRawL top ++ (str.data ++ docTextL ts)
          simp
    | start tg a =>
      have hok2 : streamOKFrom (!(VOID_TAGS.contains (asciiLower tg))) ts = true := hok
      show rawState (List.foldl stepTok
          (handleStart s (asciiLower tg) (a.map (fun p => (asciiLower p.1, p.2))))
          (ts.map lowerTok)) = rawState s ++ docTextL (.start tg a :: ts)
      have hnewtop : (!(VOID_TAGS.contains (asciiLower tg))) = true →
          topChildless (handleStart s (asciiLower tg)
            (a.map (fun p => (asciiLower p.1, p.2)))) := by
        intro hnv
        have hv : VOID_TAGS.contains (asciiLower tg) = false := by simpa using hnv
        cases s with
        | nil => exact absurd rfl hne
        | cons top rest =>
          have hred : handleStart (top :: rest) (asciiLower tg)
              (a.map (fun p => (asciiLower p.1, p.2))) =
              .mk (asciiLower tg) (a.map (fun p => (asciiLower p.1, p.2))) [] [] ::
                top :: rest := by
            show (if VOID_TAGS.contains (asciiLower tg) then _ else _) = _
            rw [if_neg (by rw [hv]; simp)]
          rw [hred]
          show HTMLNode.children (.mk _ _ [] []) = []
          rfl
      rw [ih _ _ hok2 hnewtop (handleStart_ne _ _ hne), rawState_handleStart]
      rfl
    | startEnd tg a =>
      have hok2 : streamOKFrom false ts = true := hok
      show rawState (List.foldl stepTok
          (handleEnd (handleStart s (asciiLower tg)
            (a.map (fun p => (asciiLower p.1, p.2)))) (asciiLower tg))
          (ts.map lowerTok)) = rawState s ++ docTextL (.startEnd tg a :: ts)
      rw [ih false _ hok2 (by simp) (handleEnd_ne _ (handleStart_ne _ _ hne))]
      rw [rawState_handleEnd, rawState_handleStart]
      rfl
    | endTag tg =>
      have hok2 : streamOKFrom false ts = true := hok
      show rawState (List.foldl stepTok (handleEnd s (asciiLower tg))
          (ts.map lowerTok)) = rawState s ++ docTextL (.endTag tg :: ts)
      rw [ih false _ hok2 (by simp) (handleEnd_ne _ hne)]
      rw [rawState_handleEnd]
      rfl

/-- C1 (amended): `text(strip=True)` concatenates the node's own
fragments and then each child subtree's text in child order; for any
stream in which every element's direct text precedes its child elements
(data only at the start, after a non-void start tag, or after other
data), the root's text reproduces all literal text in document order
with whitespace collapsed.  (Without that proviso the claim fails: see
the counterexample.) -/
theorem claim_C1 (toks : List Tok) (h : streamOK toks = true) :
    (buildTree toks).text true = collapseWs (docText toks) := by
  show String.mk (collapseL (textRawL (collapseStack (buildStack toks)))) =
    collapseWs (docText toks)
  have h0 : rawState (buildStack toks) = rawState [rootNode] ++ docTextL toks :=
    buildText_inv toks true [rootNode] h (fun _ => rfl) (by simp)
  unfold rawState at h0
  unfold buildStack at h0
  show String.mk (collapseL (rawState (buildStack toks))) = collapseWs (docText toks)
  unfold rawState buildStack
  rw [h0]
  rfl

/-- Witness for C1 at a concrete stream satisfying the proviso. -/
theorem claim_C1_witness :
    (buildTree [.start "div" [], .data " a ", .start "span" [], .data "b",
      .endTag "span", .endTag "div"]).text true = "a b" :=
  claim_C1 [.start "div" [], .data " a ", .start "span" [], .data "b",
      .endTag "span", .endTag "div"] (by decide)

/-- Counterexample to C1 as frozen: on well-formed markup
"<div>a<span>b</span>c</div>" the text fragment "c", which follows the
span in document order, is stored in the div's own fragments and is
emitted before the span's text, so text() yields "acb" while the
document-order content is "abc". -/
theorem claim_C1_counterexample :
    (buildTree [.start "div" [], .data "a", .start "span" [], .data "b",
      .endTag "span", .data "c", .endTag "div"]).text true = "acb" ∧
    collapseWs (docText [.start "div" [], .data "a", .start "span" [], .data "b",
      .endTag "span", .data "c", .endTag "div"]) = "abc" ∧
    ("acb" : String) ≠ "abc" :=
  ⟨rfl, rfl, by decide⟩

/-! ### C6: the ingredients table -/

/-- Following the claim's words, not the source: remove only a leading
"Ingredients:" label (text not at that position preserved) and trim. -/
def claimLeadingIngredients (s : String) : String :=
  pyStrip (if leadsWith "Ingredients:".data s.data
           then String.mk (s.data.drop 12) else s)

/-- C6 (amended): when the nutrition root and an ingredients table are
both present, the ingredients text is the table's full collapsed text
with every occurrence of the literal "Ingredients:" removed (not just a
leading one) and whitespace-trimmed, and the derived list splits that
text on commas, trimming segments and discarding empty ones. -/
theorem claim_C6 (root lc t : HTMLNode)
    (hroot : find_first root none
      (fun n => getAttr n "id" == some "nutritionLabel") = some lc)
    (htab : find_first lc (some "table")
      (fun n => n.class_list.contains "cbo_nn_Label_IngredientsTable") = some t) :
    ∃ r, nutritionParse root = some r ∧
      r.ingredients_text = pyStrip (pyReplace (t.text true) "Ingredients:" "") ∧
      r.ingredients_list =
        (splitCommaL (pyStrip (pyReplace (t.text true) "Ingredients:" "")).data).filterMap
          (fun seg => if (trimL seg).isEmpty then none
                      else some (String.mk (trimL seg))) := by
  unfold nutritionParse
  rw [hroot]
  refine ⟨_, rfl, ?_, ?_⟩
  · show (match find_first lc (some "table")
        (fun n => n.class_list.contains "cbo_nn_Label_IngredientsTable") with
      | none => ("", [])
      | some t => ingredientsOf t).1 = _
    rw [htab]
    rfl
  · show (match find_first lc (some "table")
        (fun n => n.class_list.contains "cbo_nn_Label_IngredientsTable") with
      | none => ("", [])
      | some t => ingredientsOf t).2 = _
    rw [htab]
    show (if pyStrip (pyReplace (t.text true) "Ingredients:" "") = "" then []
      else (splitCommaL (pyStrip (pyReplace (t.text true) "Ingredients:" "")).data).filterMap
        (fun seg => if (trimL seg).isEmpty then none
                    else some (String.mk (trimL seg)))) = _
    by_cases hc : pyStrip (pyReplace (t.text true) "Ingredients:" "") = ""
    · rw [if_pos hc, hc]
      rfl
    · rw [if_neg hc]

/-- Witness for C6 at a concrete label fragment. -/
theorem claim_C6_witness :
    ∃ r, nutritionParse (buildTree
      [.start "div" [("id", "nutritionLabel")],
       .start "table" [("class", "cbo_nn_Label_IngredientsTable")],
       .data "Ingredients: salt, pepper", .endTag "table", .endTag "div"]) = some r ∧
      r.ingredients_text = pyStrip (pyReplace
        (HTMLNode.text (.mk "table" [("class", "cbo_nn_Label_IngredientsTable")] []
          ["Ingredients: salt, pepper"]) true) "Ingredients:" "") ∧
      r.ingredients_list =
        (splitCommaL (pyStrip (pyReplace
          (HTMLNode.text (.mk "table" [("class", "cbo_nn_Label_IngredientsTable")] []
            ["Ingredients: salt, pepper"]) true) "Ingredients:" "")).data).filterMap
          (fun seg => if (trimL seg).isEmpty then none
                      else some (String.mk (trimL seg))) :=
  claim_C6 _ _ _ rfl rfl

/-- Counterexample to C6 as frozen: `str.replace` removes every
occurrence of "Ingredients:", not only a leading one, so text not at
the leading position is not preserved. -/
theorem claim_C6_counterexample :
    (nutritionParse (buildTree
      [.start "div" [("id", "nutritionLabel")],
       .start "table" [("class", "cbo_nn_Label_IngredientsTable")],
       .data "Ingredients: salt, Ingredients: pepper",
       .endTag "table", .endTag "div"])).map NutritionRec.ingredients_text =
      some "salt,  pepper" ∧
    claimLeadingIngredients "Ingredients: salt, Ingredients: pepper" =
      "salt, Ingredients: pepper" ∧
    ("salt,  pepper" : String) ≠ "salt, Ingredients: pepper" :=
  ⟨rfl, rfl, by decide⟩

/-! ### C7: idempotence of the label normalizer -/

/-- Characters produced by one normalization pass are fixed by every
stage of a second pass: decomposition-free, non-combining, and
lowercase-stable. -/
def charStableP (e : Char) : Prop :=
  nfkdChar e = [e] ∧ combiningChar e = false ∧ pyLowerChar e = e

instance (e : Char) : Decidable (charStableP e) :=
  inferInstanceAs
    (Decidable (nfkdChar e = [e] ∧ combiningChar e = false ∧ pyLowerChar e = e))

theorem charStable :
    ∀ (c d : Char), d ∈ nfkdChar c → combiningChar d = false →
      charStableP (pyLowerChar d) := by
  intro c d hd hnc
  cases hfc : nfkdTable.find? (fun p => p.1 == c) with
  | some entry =>
    have hmem : entry ∈ nfkdTable := List.mem_of_find?_eq_some hfc
    have hdc : d ∈ entry.2 := by
      have hcc : nfkdChar c = entry.2 := by unfold nfkdChar; rw [hfc]
      rwa [hcc] at hd
    have aux1 : ∀ e ∈ nfkdTable, ∀ d2 ∈ e.2, combiningChar d2 = false →
        charStableP (pyLowerChar d2) := by decide
    exact aux1 entry hmem d hdc hnc
  | none =>
    have hcc : nfkdChar c = [c] := by unfold nfkdChar; rw [hfc]
    have hdcc : d = c := by rw [hcc] at hd; simpa using hd
    subst hdcc
    cases hfl : lowerTable.find? (fun p => p.1 == d) with
    | some entry =>
      have hmem : entry ∈ lowerTable := List.mem_of_find?_eq_some hfl
      have hkey : entry.1 = d := by
        have := List.find?_some hfl
        simpa using this
      have hlow : pyLowerChar d = entry.2 := by unfold pyLowerChar; rw [hfl]
      have aux2 : ∀ e ∈ lowerTable,
          nfkdTable.find? (fun p => p.1 == e.1) = none → charStableP e.2 := by decide
      rw [hlow]
      apply aux2 entry hmem
      rw [hkey]
      exact hfc
    | none =>
      have hlow : pyLowerChar d = d := by unfold pyLowerChar; rw [hfl]
      rw [hlow]
      exact ⟨hcc, hnc, hlow⟩

theorem isWs_pyLowerChar (c : Char) : isWs (pyLowerChar c) = isWs c := by
  cases hfl : lowerTable.find? (fun p => p.1 == c) with
  | some entry =>
    have hmem : entry ∈ lowerTable := List.mem_of_find?_eq_some hfl
    have hkey : entry.1 = c := by
      have := List.find?_some hfl
      simpa using this
    have hlow : pyLowerChar c = entry.2 := by unfold pyLowerChar; rw [hfl]
    have aux3 : ∀ e ∈ lowerTable, isWs e.2 = isWs e.1 := by decide
    rw [hlow, aux3 entry hmem, hkey]
  | none =>
    have hlow : pyLowerChar c = c := by unfold pyLowerChar; rw [hfl]
    rw [hlow]

theorem mem_nfkdL {e : Char} :
    ∀ {l : List Char}, e ∈ nfkdL l → ∃ c ∈ l, e ∈ nfkdChar c := by
  intro l
  induction l with
  | nil => intro h; simp [nfkdL] at h
  | cons c cs ih =>
    intro h
    rw [show nfkdL (c :: cs) = nfkdChar c ++ nfkdL cs from rfl] at h
    rcases List.mem_append.mp h with h1 | h2
    · exact ⟨c, by simp, h1⟩
    · obtain ⟨c2, hc2, he⟩ := ih h2
      exact ⟨c2, by simp [hc2], he⟩

theorem nfkdL_eq_self :
    ∀ (l : List Char), (∀ e ∈ l, nfkdChar e = [e]) → nfkdL l = l := by
  intro l
  induction l with
  | nil => intro _; rfl
  | cons c cs ih =>
    intro h
    show nfkdChar c ++ nfkdL cs = c :: cs
    rw [h c (by simp), ih (fun e he => h e (by simp [he]))]
    rfl

theorem map_self_of_fixed {f : Char → Char} :
    ∀ (l : List Char), (∀ e ∈ l, f e = e) → l.map f = l := by
  intro l
  induction l with
  | nil => intro _; rfl
  | cons c cs ih =>
    intro h
    rw [List.map_cons, h c (by simp), ih (fun e he => h e (by simp [he]))]

theorem dropWhile_isWs_idem (l : List Char) :
    (l.dropWhile isWs).dropWhile isWs = l.dropWhile isWs := by
  have h := List.head?_dropWhile_not isWs l
  cases hd : l.dropWhile isWs with
  | nil => rfl
  | cons a as =>
    rw [hd] at h
    exact List.dropWhile_cons_of_neg (by simp at h ⊢; simp [h])

/-- The head (if any) is not whitespace. -/
def noLeadWs : List Char → Prop
  | [] => True
  | a :: _ => isWs a = false

theorem noLeadWs_dropWhile (l : List Char) : noLeadWs (l.dropWhile isWs) := by
  have h := List.head?_dropWhile_not isWs l
  cases hd : l.dropWhile isWs with
  | nil => trivial
  | cons a as =>
    rw [hd] at h
    simpa using h

theorem dropWhile_eq_self_of_noLead {l : List Char} (h : noLeadWs l) :
    l.dropWhile isWs = l := by
  cases l with
  | nil => rfl
  | cons a as =>
    have ha : isWs a = false := h
    exact List.dropWhile_cons_of_neg (by simp [ha])

theorem noLeadWs_revdrop {A : List Char} (h : noLeadWs A) :
    noLeadWs ((A.reverse.dropWhile isWs).reverse) := by
  cases A with
  | nil => simp [noLeadWs]
  | cons a as =>
    have ha : isWs a = false := h
    rw [List.reverse_cons, List.dropWhile_append]
    by_cases he : ((as.reverse).dropWhile isWs).isEmpty = true
    · rw [if_pos he, List.dropWhile_cons_of_neg (by simp [ha])]
      simp [noLeadWs, ha]
    · rw [if_neg he, List.reverse_append]
      simp [noLeadWs, ha]

theorem trimL_idem (l : List Char) : trimL (trimL l) = trimL l := by
  unfold trimL
  have hB : noLeadWs (((l.dropWhile isWs).reverse.dropWhile isWs).reverse) :=
    noLeadWs_revdrop (noLeadWs_dropWhile l)
  rw [dropWhile_eq_self_of_noLead hB, List.reverse_reverse, dropWhile_isWs_idem]

theorem dropWhile_isWs_map (f : Char → Char) (hf : ∀ c, isWs (f c) = isWs c) :
    ∀ (l : List Char), (l.map f).dropWhile isWs = (l.dropWhile isWs).map f := by
  intro l
  induction l with
  | nil => rfl
  | cons a as ih =>
    by_cases ha : isWs a = true
    · rw [List.map_cons, List.dropWhile_cons_of_pos (by rw [hf]; exact ha),
          List.dropWhile_cons_of_pos ha, ih]
    · rw [List.map_cons, List.dropWhile_cons_of_neg (by rw [hf]; simp [ha]),
          List.dropWhile_cons_of_neg (by simp [ha]), List.map_cons]

theorem trimL_map (f : Char → Char) (hf : ∀ c, isWs (f c) = isWs c)
    (l : List Char) : trimL (l.map f) = (trimL l).map f := by
  unfold trimL
  rw [dropWhile_isWs_map f hf l, ← List.map_reverse, dropWhile_isWs_map f hf,
      ← List.map_reverse]

theorem mem_trimL {a : Char} {l : List Char} (h : a ∈ trimL l) : a ∈ l := by
  unfold trimL at h
  rw [List.mem_reverse] at h
  have h2 : a ∈ (l.dropWhile isWs).reverse :=
    List.Sublist.mem h (List.dropWhile_sublist isWs)
  rw [List.mem_reverse] at h2
  exact List.Sublist.mem h2 (List.dropWhile_sublist isWs)

/-- One pass of `normalize_label` on raw characters. -/
theorem normalizeL_idem (w : List Char) :
    (trimL ((nfkdL ((trimL ((nfkdL w).filter (fun c => !combiningChar c))).map
        pyLowerChar)).filter (fun c => !combiningChar c))).map pyLowerChar =
      (trimL ((nfkdL w).filter (fun c => !combiningChar c))).map pyLowerChar := by
  have hP : ∀ e ∈ (trimL ((nfkdL w).filter (fun c => !combiningChar c))).map
      pyLowerChar, charStableP e := by
    intro e he
    obtain ⟨d, hd, rfl⟩ := List.mem_map.mp he
    have hdf : d ∈ (nfkdL w).filter (fun c => !combiningChar c) := mem_trimL hd
    obtain ⟨hdn, hdc0⟩ := List.mem_filter.mp hdf
    have hdc : combiningChar d = false := by simpa using hdc0
    obtain ⟨c, _, hdm⟩ := mem_nfkdL hdn
    exact charStable c d hdm hdc
  have h1 : nfkdL ((trimL ((nfkdL w).filter (fun c => !combiningChar c))).map
      pyLowerChar) = (trimL ((nfkdL w).filter (fun c => !combiningChar c))).map
      pyLowerChar :=
    nfkdL_eq_self _ (fun e he => (hP e he).1)
  rw [h1]
  have h2 : ((trimL ((nfkdL w).filter (fun c => !combiningChar c))).map
      pyLowerChar).filter (fun c => !combiningChar c) =
      (trimL ((nfkdL w).filter (fun c => !combiningChar c))).map pyLowerChar := by
    rw [List.filter_eq_self]
    intro a ha
    rw [(hP a ha).2.1]
    rfl
  rw [h2]
  rw [trimL_map pyLowerChar isWs_pyLowerChar, trimL_idem]
  exact map_self_of_fixed _ (fun e he => (hP e he).2.2)

/-- C7: the label normalizer (NFKD decomposition over the modelled
repertoire, combining-mark removal, strip, lowercase) is idempotent,
and normalize("Café") = normalize("cafe") = "cafe". -/
theorem claim_C7 :
    (∀ x : String, normalize_label (normalize_label x) = normalize_label x) ∧
    normalize_label "Café" = "cafe" ∧
    normalize_label "cafe" = "cafe" := by
  refine ⟨?_, rfl, rfl⟩
  intro x
  show String.mk _ = String.mk _
  exact congrArg String.mk (normalizeL_idem x.data)

/-! ### C3: menu extraction on the two-item family

The claim quantifies over menu markup whose first table holds one
category-header row followed by two item rows of the described shape;
that family is embedded with string/list parameters for everything that
varies (category name, detail ids, item names, serving sizes, portion
options) and the claim is proved for all parameter values. -/

/-- An option element of the portion selector. -/
def mkOption (p : String × String) : HTMLNode :=
  .mk "option" [("value", p.1)] [] [p.2]

/-- An item row of the claimed shape: a numeric detail id and hover
anchor in cell 1, serving-size text in cell 2, a portion select in
cell 3. -/
def mkItemRow (cls did nm sv : String) (ps : List (String × String)) : HTMLNode :=
  .mk "tr" [("class", cls)]
    [.mk "td" [] [] [],
     .mk "td" []
       [.mk "a" [("class", "cbo_nn_itemHover"), ("data-detailoid", did)] [] [nm]] [],
     .mk "td" [] [] [sv],
     .mk "td" [] [.mk "select" [] (ps.map mkOption) []] []]
    []

/-- A category-header row whose first div holds the category name. -/
def mkCatRow (c : String) : HTMLNode :=
  .mk "tr" [("class", "cbo_nn_itemGroupRow")] [.mk "div" [] [] [c]] []

def mkMenuTable (c i1 n1 s1 : String) (ps1 : List (String × String))
    (i2 n2 s2 : String) (ps2 : List (String × String)) : HTMLNode :=
  .mk "table" []
    [mkCatRow c,
     mkItemRow "cbo_nn_itemPrimaryRow" i1 n1 s1 ps1,
     mkItemRow "cbo_nn_itemAlternateRow" i2 n2 s2 ps2] []

def mkMenuRoot (c i1 n1 s1 : String) (ps1 : List (String × String))
    (i2 n2 s2 : String) (ps2 : List (String × String)) : HTMLNode :=
  .mk "document" [] [mkMenuTable c i1 n1 s1 ps1 i2 n2 s2 ps2] []

/-- The item record the claim predicts for such a row. -/
def expectedItem {α : Type} (lookup : Int → α) (d : Int) (nm sv : String)
    (ps : List (String × String)) : MenuItem α :=
  { detail_id := d, name := collapseWs nm, labels := [],
    serving_size := collapseWs sv,
    portion_options := ps.map (fun p => (some p.1, collapseWs p.2)),
    components := [], customizations := [], nutrition := lookup d }

theorem nodeIterList_map_mkOption (ps : List (String × String)) :
    nodeIterList (ps.map mkOption) = ps.map mkOption := by
  induction ps with
  | nil => rfl
  | cons p ps ih =>
    show nodeIter (mkOption p) ++ nodeIterList (ps.map mkOption) = _
    rw [ih]
    rfl

theorem filter_map_mkOption_of_false {q : HTMLNode → Bool}
    (hq : ∀ p, q (mkOption p) = false) :
    ∀ ps : List (String × String), (ps.map mkOption).filter q = [] := by
  intro ps
  induction ps with
  | nil => rfl
  | cons p ps ih => simp [List.filter_cons, hq p, ih]

theorem filter_map_mkOption_of_true {q : HTMLNode → Bool}
    (hq : ∀ p, q (mkOption p) = true) :
    ∀ ps : List (String × String), (ps.map mkOption).filter q = ps.map mkOption := by
  intro ps
  induction ps with
  | nil => rfl
  | cons p ps ih => simp [List.filter_cons, hq p, ih]

theorem find?_map_mkOption_of_false {q : HTMLNode → Bool}
    (hq : ∀ p, q (mkOption p) = false) :
    ∀ ps : List (String × String), (ps.map mkOption).find? q = none := by
  intro ps
  induction ps with
  | nil => rfl
  | cons p ps ih => simp [List.find?_cons, hq p, ih]

theorem nodeEq_mkOption_refl (p : String × String) :
    nodeEq (mkOption p) (mkOption p) = true := by
  simp [mkOption, nodeEq, nodeEqList]

theorem nodeEq_select_refl (ps : List (String × String)) :
    nodeEq (.mk "select" [] (ps.map mkOption) [])
      (.mk "select" [] (ps.map mkOption) []) = true := by
  have h : ∀ ps2 : List (String × String),
      nodeEqList (ps2.map mkOption) (ps2.map mkOption) = true := by
    intro ps2
    induction ps2 with
    | nil => rfl
    | cons p ps2 ih =>
      simp [List.map_cons, nodeEqList, nodeEq_mkOption_refl p, ih]
  simp [nodeEq, h ps]

theorem parse_item_row_mk {α : Type} (lookup : Int → α) (cls i nm sv : String)
    (ps : List (String × String)) (d : Int)
    (hd : pyInt? i = some d) (hi : i ≠ "") :
    parse_item_row lookup (mkItemRow cls i nm sv ps) =
      (some (expectedItem lookup d nm sv ps), [d]) := by
  have hbne : (i != "") = true := by simpa using hi
  unfold parse_item_row mkItemRow expectedItem
  simp [find_first, find_all, nodeIter, nodeIterList, nodeIterList_map_mkOption,
    List.find?_cons, matchesQ, trueP, truthyAttr, getAttr, getAttrD,
    HTMLNode.attrs, HTMLNode.tag, HTMLNode.children, HTMLNode.class_list,
    HTMLNode.text, textRawL, textRawListL, collapseWs, hbne, hd,
    filter_map_mkOption_of_true (q := matchesQ (some "option") trueP) (fun p => rfl),
    filter_map_mkOption_of_false (q := matchesQ (some "select") trueP) (fun p => rfl),
    nodeEq_select_refl, wordsL, wordsAux, isWs, List.filter_cons, List.map_map,
    mkOption]

theorem isGroupRow_mkCatRow (c : String) : isGroupRow (mkCatRow c) = true := by rfl

theorem groupName_mkCatRow (c : String) : groupName (mkCatRow c) = collapseWs c := by
  simp [groupName, mkCatRow, find_first, nodeIter, nodeIterList, matchesQ, trueP,
    HTMLNode.tag, List.find?_cons, HTMLNode.text, textRawL, textRawListL, collapseWs]

theorem find_first_table_mkMenuRoot (c i1 n1 s1 i2 n2 s2 : String)
    (ps1 ps2 : List (String × String)) :
    find_first (mkMenuRoot c i1 n1 s1 ps1 i2 n2 s2 ps2) (some "table") trueP =
      some (mkMenuTable c i1 n1 s1 ps1 i2 n2 s2 ps2) := by
  simp [mkMenuRoot, mkMenuTable, mkCatRow, mkItemRow, mkOption, find_first,
    nodeIter, nodeIterList, nodeIterList_map_mkOption, matchesQ, trueP,
    HTMLNode.tag, List.find?_cons,
    find?_map_mkOption_of_false (q := matchesQ (some "table") trueP) (fun p => rfl)]

theorem find_all_tr_mkMenuTable (c i1 n1 s1 i2 n2 s2 : String)
    (ps1 ps2 : List (String × String)) :
    find_all (mkMenuTable c i1 n1 s1 ps1 i2 n2 s2 ps2) (some "tr") trueP =
      [mkCatRow c, mkItemRow "cbo_nn_itemPrimaryRow" i1 n1 s1 ps1,
       mkItemRow "cbo_nn_itemAlternateRow" i2 n2 s2 ps2] := by
  simp [mkMenuTable, mkCatRow, mkItemRow, mkOption, find_all, nodeIter, nodeIterList,
    nodeIterList_map_mkOption, matchesQ, trueP, HTMLNode.tag, List.filter_cons,
    List.filter_append,
    filter_map_mkOption_of_false (q := matchesQ (some "tr") trueP) (fun p => rfl)]

theorem menuFold_cons_group {α : Type} (lookup : Int → α) (r : HTMLNode)
    (rows : List HTMLNode) (cats : List (MenuCat α)) (hg : isGroupRow r = true) :
    menuFold lookup (r :: rows) cats =
      menuFold lookup rows (cats ++ [{ name := groupName r, items := [] }]) := by
  conv_lhs => rw [menuFold]
  rw [if_pos hg]

theorem menuFold_cons_item {α : Type} (lookup : Int → α) (r : HTMLNode)
    (rows : List HTMLNode) (cats : List (MenuCat α)) (it : MenuItem α) (log : List Int)
    (hg : isGroupRow r = false) (hi : isItemRow r = true)
    (hne : cats.isEmpty = false) (hp : parse_item_row lookup r = (some it, log)) :
    menuFold lookup (r :: rows) cats =
      ((menuFold lookup rows (addItemLast cats it)).1,
       log ++ (menuFold lookup rows (addItemLast cats it)).2) := by
  conv_lhs => rw [menuFold]
  rw [if_neg (by simp [hg]), if_pos hi, if_neg (by simp [hne]), hp]

/-- C3: on any menu whose first table holds one category-header row
followed by two item rows of the described shape (numeric detail id and
hover anchor in the name cell, serving-size cell, portion-select cell —
four cells), `extractMenu` returns exactly one category holding the two
items in row order, each carrying the extracted name, serving-size text
and portion (value, label) options; the injected `nutritionLookup` is
invoked exactly once per item, with that item's detail id, in row order
(the call log is `[d1, d2]`), and its result is embedded verbatim in
the item's nutrition field. -/
theorem claim_C3 {α : Type} (lookup : Int → α) (c i1 n1 s1 i2 n2 s2 : String)
    (ps1 ps2 : List (String × String)) (d1 d2 : Int)
    (h1 : pyInt? i1 = some d1) (h1n : i1 ≠ "")
    (h2 : pyInt? i2 = some d2) (h2n : i2 ≠ "") :
    menuParse lookup (mkMenuRoot c i1 n1 s1 ps1 i2 n2 s2 ps2) =
      ([{ name := collapseWs c,
          items := [expectedItem lookup d1 n1 s1 ps1,
                    expectedItem lookup d2 n2 s2 ps2] }], [d1, d2]) := by
  unfold menuParse
  rw [find_first_table_mkMenuRoot]
  show menuFold lookup
    (find_all (mkMenuTable c i1 n1 s1 ps1 i2 n2 s2 ps2) (some "tr") trueP) [] = _
  rw [find_all_tr_mkMenuTable]
  rw [menuFold_cons_group lookup _ _ _ (isGroupRow_mkCatRow c), groupName_mkCatRow]
  rw [menuFold_cons_item lookup _ _ _ _ _ (by rfl) (by rfl) (by rfl)
    (parse_item_row_mk lookup "cbo_nn_itemPrimaryRow" i1 n1 s1 ps1 d1 h1 h1n)]
  rw [menuFold_cons_item lookup _ _ _ _ _ (by rfl) (by rfl) (by simp [addItemLast])
    (parse_item_row_mk lookup "cbo_nn_itemAlternateRow" i2 n2 s2 ps2 d2 h2 h2n)]
  simp [menuFold, addItemLast]

/-- Witness for C3 at concrete parameters. -/
theorem claim_C3_witness :
    menuParse (fun d : Int => d)
      (mkMenuRoot "Entrees" "11" "Pizza" "1 slice" [("1", "Slice")]
        "22" "Soup" "1 cup" [("2", "Cup"), ("3", "Bowl")]) =
      ([{ name := collapseWs "Entrees",
          items := [expectedItem (fun d : Int => d) 11 "Pizza" "1 slice"
                      [("1", "Slice")],
                    expectedItem (fun d : Int => d) 22 "Soup" "1 cup"
                      [("2", "Cup"), ("3", "Bowl")]] }],
       [11, 22]) :=
  claim_C3 (fun d => d) "Entrees" "11" "Pizza" "1 slice" "22" "Soup" "1 cup"
    [("1", "Slice")] [("2", "Cup"), ("3", "Bowl")] 11 22 (by decide) (by decide)
    (by decide) (by decide)
